import Mathlib

/-!
Shallow embedding of the FruitBid application's core bidding/billing logic
(`Fruitbidapp.py`, `db.py`, `otp.py`, `utils.py`) and proofs about it.

Modelling conventions:
* SQLite REAL amounts are modelled as rationals; SQLite tables as Lean lists
  in insertion order (AUTOINCREMENT ids grow with insertion order).
* ISO-8601 timestamp strings produced by `datetime.isoformat()` are modelled
  by their underlying timestamps (integer seconds); `isoformat` is injective
  and `fromisoformat` inverts it, so equality comparisons and arithmetic on
  the strings correspond exactly to equality and arithmetic on the integers.
* Python `None` is modelled as `Option.none`; the settings table maps a key
  to `none` both when the row is absent and when its value is NULL, which is
  exactly what `get_setting` observes.
-/

namespace FruitBid

/-- One row of the `bids` table: `(item_name, user_id, bid_amount, timestamp)`
as created by the Submit Bid handler in `Fruitbidapp.py`. -/
structure Bid where
  item_name : String
  user_id : Nat
  bid_amount : ℚ
  timestamp : Int
deriving DecidableEq, Repr

/-- Embeds `get_highest_bid` from `db.py`: `SELECT MAX(bid_amount) FROM bids
WHERE item_name = ?`; the aggregate is NULL when no row matches and the
function then returns 0. -/
def get_highest_bid (bids : List Bid) (item : String) : ℚ :=
  match (bids.filter (fun b => b.item_name == item)).map Bid.bid_amount with
  | [] => 0
  | a :: rest => rest.foldl max a

/-- Embeds the `SELECT bid_amount FROM bids WHERE item_name=? AND user_id=?
ORDER BY bid_amount DESC LIMIT 1` query of the Submit Bid handler: the
maximum amount this user has bid on this item, when any. -/
def users_own_standing (bids : List Bid) (item : String) (uid : Nat) : Option ℚ :=
  match (bids.filter (fun b => b.item_name == item && b.user_id == uid)).map Bid.bid_amount with
  | [] => none
  | a :: rest => some (rest.foldl max a)

/-- The four distinct rejection messages of the Submit Bid handler, in source
order. -/
inductive BidError where
  | DuplicateOrLower
  | ExceedsCap
  | BelowHighest
  | BelowMinimum
deriving DecidableEq, Repr

/-- Embeds the Submit Bid handler of `Fruitbidapp.py` (lines 387-414).
`cap = get_market_cap(item) or 0` and `min_bid = get_min_bid(item) or 0`
are modelled by `Option.getD 0` (Python `or` maps both `None` and `0.0`
to `0`). On success the INSERT appends one row with the supplied
timestamp. -/
def place_bid (bids : List Bid) (capOpt minOpt : Option ℚ) (item : String) (uid : Nat)
    (amount : ℚ) (now : Int) : Except BidError (List Bid) :=
  let cap := capOpt.getD 0
  let minBid := minOpt.getD 0
  let highest := get_highest_bid bids item
  let dup : Bool := match users_own_standing bids item uid with
    | some e => decide (amount ≤ e)
    | none => false
  if dup then .error .DuplicateOrLower
  else if amount > cap then .error .ExceedsCap
  else if amount ≤ highest then .error .BelowHighest
  else if amount < minBid then .error .BelowMinimum
  else .ok (bids ++ [⟨item, uid, amount, now⟩])

theorem le_foldl_max_init (l : List ℚ) (a : ℚ) : a ≤ l.foldl max a := by
  induction l generalizing a with
  | nil => simp
  | cons x xs ih =>
    simp only [List.foldl_cons]
    exact le_trans (le_max_left a x) (ih (max a x))

theorem le_foldl_max_of_mem {l : List ℚ} {x : ℚ} (hx : x ∈ l) (a : ℚ) :
    x ≤ l.foldl max a := by
  induction l generalizing a with
  | nil => cases hx
  | cons y ys ih =>
    simp only [List.foldl_cons]
    rcases List.mem_cons.mp hx with rfl | hmem
    · exact le_trans (le_max_right a x) (le_foldl_max_init ys (max a x))
    · exact ih hmem (max a y)

theorem foldl_max_mem (l : List ℚ) (a : ℚ) : l.foldl max a = a ∨ l.foldl max a ∈ l := by
  induction l generalizing a with
  | nil => simp
  | cons x xs ih =>
    simp only [List.foldl_cons]
    rcases ih (max a x) with h | h
    · rcases max_cases a x with ⟨hm, _⟩ | ⟨hm, _⟩
      · exact Or.inl (h.trans hm)
      · exact Or.inr (by rw [h, hm]; exact List.mem_cons_self x xs)
    · exact Or.inr (List.mem_cons_of_mem x h)

/-- C2: for every item, `get_highest_bid` returns 0 when the item has no
bids, and otherwise returns an amount that occurs among the item's bids
and bounds every amount bid on the item from above. -/
theorem get_highest_bid_spec (bids : List Bid) (item : String) :
    ((bids.filter (fun b => b.item_name == item)).map Bid.bid_amount = []
        ∧ get_highest_bid bids item = 0)
    ∨ (get_highest_bid bids item ∈ (bids.filter (fun b => b.item_name == item)).map Bid.bid_amount
        ∧ ∀ a ∈ (bids.filter (fun b => b.item_name == item)).map Bid.bid_amount,
            a ≤ get_highest_bid bids item) := by
  unfold get_highest_bid
  cases h : (bids.filter (fun b => b.item_name == item)).map Bid.bid_amount with
  | nil => exact Or.inl ⟨rfl, rfl⟩
  | cons a rest =>
    refine Or.inr ⟨?_, ?_⟩
    · show rest.foldl max a ∈ a :: rest
      rcases foldl_max_mem rest a with he | he
      · rw [he]; exact List.mem_cons_self a rest
      · exact List.mem_cons_of_mem a he
    · intro x hx
      show x ≤ rest.foldl max a
      rcases List.mem_cons.mp hx with rfl | hmem
      · exact le_foldl_max_init rest x
      · exact le_foldl_max_of_mem hmem a

/-- C1: `place_bid` accepts an amount iff it strictly exceeds the user's own
standing (when one exists), is at most the market cap, strictly exceeds the
current highest bid and is at least the minimum bid; a rejection reports the
first violated condition in exactly the source's order (own standing, cap,
highest, minimum), and acceptance appends exactly one new bid row carrying
the supplied timestamp. -/
theorem place_bid_spec (bids : List Bid) (capOpt minOpt : Option ℚ) (item : String)
    (uid : Nat) (amount : ℚ) (now : Int) :
    (place_bid bids capOpt minOpt item uid amount now
        = .ok (bids ++ [⟨item, uid, amount, now⟩])
      ↔ (∀ e, users_own_standing bids item uid = some e → e < amount)
        ∧ amount ≤ capOpt.getD 0
        ∧ get_highest_bid bids item < amount
        ∧ minOpt.getD 0 ≤ amount)
    ∧ (∀ l, place_bid bids capOpt minOpt item uid amount now = .ok l
        → l = bids ++ [⟨item, uid, amount, now⟩])
    ∧ (place_bid bids capOpt minOpt item uid amount now = .error .DuplicateOrLower
      ↔ ∃ e, users_own_standing bids item uid = some e ∧ amount ≤ e)
    ∧ (place_bid bids capOpt minOpt item uid amount now = .error .ExceedsCap
      ↔ (∀ e, users_own_standing bids item uid = some e → e < amount)
        ∧ capOpt.getD 0 < amount)
    ∧ (place_bid bids capOpt minOpt item uid amount now = .error .BelowHighest
      ↔ (∀ e, users_own_standing bids item uid = some e → e < amount)
        ∧ amount ≤ capOpt.getD 0
        ∧ amount ≤ get_highest_bid bids item)
    ∧ (place_bid bids capOpt minOpt item uid amount now = .error .BelowMinimum
      ↔ (∀ e, users_own_standing bids item uid = some e → e < amount)
        ∧ amount ≤ capOpt.getD 0
        ∧ get_highest_bid bids item < amount
        ∧ amount < minOpt.getD 0) := by
  rcases hstand : users_own_standing bids item uid with _ | e
  all_goals
    simp only [place_bid, hstand]
    split_ifs with h1 h2 h3 h4 <;> simp_all

/-- One row of the `lucky_dip` table: `(item_name, user_id, bid_amount)` with
`item_name` as primary key. -/
structure LuckyRow where
  item_name : String
  user_id : Nat
  bid_amount : ℚ
deriving DecidableEq, Repr

/-- Embeds `SELECT user_id, bid_amount FROM bids WHERE item_name=?`: the full
list of `(user, amount)` pairs bid on an item, in insertion order. -/
def item_bid_pairs (bids : List Bid) (item : String) : List (Nat × ℚ) :=
  (bids.filter (fun b => b.item_name == item)).map (fun b => (b.user_id, b.bid_amount))

/-- Embeds one loop iteration of the lucky-dip block of `Fruitbidapp.py`
(lines 261-266): when the item has bids, `random.choice(bids_list)` picks one
element of the full list; the random draw is modelled by an arbitrary index
selector `pick`, reduced mod the list length so that any selector denotes an
element of the list, exactly as `random.choice` does. -/
def lucky_winner (pick : List (Nat × ℚ) → Nat) (item : String) (bids : List Bid) :
    Option LuckyRow :=
  match item_bid_pairs bids item with
  | [] => none
  | p :: ps =>
    let l := p :: ps
    let w := l.getD (pick l % l.length) p
    some ⟨item, w.1, w.2⟩

/-- Embeds the lucky-dip block of `Fruitbidapp.py` (lines 255-267): guarded by
`SELECT COUNT(*) FROM lucky_dip` being 0; when empty, one row is inserted per
item that has at least one bid. -/
def lucky_dip_pass (pick : List (Nat × ℚ) → Nat) (items : List String) (bids : List Bid)
    (lucky : List LuckyRow) : List LuckyRow :=
  if lucky.isEmpty then items.filterMap (fun i => lucky_winner pick i bids)
  else lucky

theorem getD_mem_of_lt {α : Type} (l : List α) (n : Nat) (d : α) (h : n < l.length) :
    l.getD n d ∈ l := by
  induction l generalizing n with
  | nil => simp at h
  | cons x xs ih =>
    cases n with
    | zero => simp [List.getD]
    | succ m =>
      simp only [List.getD_cons_succ]
      exact List.mem_cons_of_mem x (ih m (by simpa using h))

theorem lucky_winner_eq_some {pick : List (Nat × ℚ) → Nat} {item : String} {bids : List Bid}
    {r : LuckyRow} (h : lucky_winner pick item bids = some r) :
    r.item_name = item ∧ (r.user_id, r.bid_amount) ∈ item_bid_pairs bids item := by
  unfold lucky_winner at h
  cases hp : item_bid_pairs bids item with
  | nil => rw [hp] at h; cases h
  | cons p ps =>
    rw [hp] at h
    simp only [Option.some.injEq] at h
    subst h
    refine ⟨rfl, ?_⟩
    have hlt : pick (p :: ps) % (p :: ps).length < (p :: ps).length :=
      Nat.mod_lt _ (by simp)
    have := getD_mem_of_lt (p :: ps) (pick (p :: ps) % (p :: ps).length) p hlt
    simpa using this

theorem lucky_winner_eq_none {pick : List (Nat × ℚ) → Nat} {item : String} {bids : List Bid} :
    lucky_winner pick item bids = none ↔ item_bid_pairs bids item = [] := by
  unfold lucky_winner
  cases hp : item_bid_pairs bids item <;> simp

theorem lucky_filter_not_mem (pick : List (Nat × ℚ) → Nat) (bids : List Bid) (item : String) :
    ∀ items : List String, item ∉ items →
    ((items.filterMap (fun i => lucky_winner pick i bids)).filter
        (fun r => r.item_name == item)) = [] := by
  intro items
  induction items with
  | nil => intro _; rfl
  | cons x xs ih =>
    intro hnm
    have hx : item ≠ x := fun h => hnm (h ▸ List.mem_cons_self x xs)
    have hxs : item ∉ xs := fun h => hnm (List.mem_cons_of_mem x h)
    simp only [List.filterMap_cons]
    cases hw : lucky_winner pick x bids with
    | none => exact ih hxs
    | some r =>
      have hr := (lucky_winner_eq_some hw).1
      simp only [List.filter_cons]
      have : (r.item_name == item) = false := by
        simp [hr]; exact fun h => hx h.symm
      rw [this]
      exact ih hxs

theorem lucky_filter_count_one (pick : List (Nat × ℚ) → Nat) (bids : List Bid) (item : String) :
    ∀ items : List String, items.Nodup → item ∈ items → item_bid_pairs bids item ≠ [] →
    ((items.filterMap (fun i => lucky_winner pick i bids)).filter
        (fun r => r.item_name == item)).length = 1 := by
  intro items
  induction items with
  | nil => intro _ h; cases h
  | cons x xs ih =>
    intro hnd hmem hne
    rcases List.mem_cons.mp hmem with rfl | hmem
    · cases hw : lucky_winner pick item bids with
      | none => exact absurd (lucky_winner_eq_none.mp hw) hne
      | some r =>
        have hr := (lucky_winner_eq_some hw).1
        simp only [List.filterMap_cons, hw, List.filter_cons]
        have : (r.item_name == item) = true := by simp [hr]
        rw [this]
        have hninxs : item ∉ xs := (List.nodup_cons.mp hnd).1
        simp [lucky_filter_not_mem pick bids item xs hninxs]
    · have hnd2 := (List.nodup_cons.mp hnd).2
      have hx : x ≠ item := fun h => (List.nodup_cons.mp hnd).1 (h ▸ hmem)
      simp only [List.filterMap_cons]
      cases hw : lucky_winner pick x bids with
      | none => exact ih hnd2 hmem hne
      | some r =>
        have hr := (lucky_winner_eq_some hw).1
        simp only [List.filter_cons]
        have : (r.item_name == item) = false := by
          simp [hr]; exact fun h => hx h
        rw [this]
        exact ih hnd2 hmem hne

/-- C3: when the lucky-dip table is empty, the pass inserts, for any value of
the random draw, exactly one row per item with at least one bid and no row
for items without bids, and every inserted row's `(user, amount)` pair comes
from that item's full bid list; when the table is already populated the pass
leaves it untouched, so re-running the pass after it has run changes
nothing. -/
theorem lucky_dip_pass_spec (pick : List (Nat × ℚ) → Nat) (items : List String)
    (bids : List Bid) (hnd : items.Nodup) :
    (∀ item ∈ items, item_bid_pairs bids item ≠ [] →
      ((lucky_dip_pass pick items bids []).filter (fun r => r.item_name == item)).length = 1)
    ∧ (∀ item : String, item_bid_pairs bids item = [] →
      ((lucky_dip_pass pick items bids []).filter (fun r => r.item_name == item)).length = 0)
    ∧ (∀ r ∈ lucky_dip_pass pick items bids [],
      (r.user_id, r.bid_amount) ∈ item_bid_pairs bids r.item_name)
    ∧ (∀ (pk : List (Nat × ℚ) → Nat) (lucky : List LuckyRow), lucky ≠ [] →
      lucky_dip_pass pk items bids lucky = lucky)
    ∧ (∀ pk : List (Nat × ℚ) → Nat,
      lucky_dip_pass pk items bids (lucky_dip_pass pick items bids [])
        = lucky_dip_pass pick items bids []) := by
  have hrun : lucky_dip_pass pick items bids []
      = items.filterMap (fun i => lucky_winner pick i bids) := by
    simp [lucky_dip_pass]
  refine ⟨?_, ?_, ?_, ?_, ?_⟩
  · intro item hmem hne
    rw [hrun]
    exact lucky_filter_count_one pick bids item items hnd hmem hne
  · intro item hnil
    rw [hrun]
    rw [List.length_eq_zero, List.filter_eq_nil_iff]
    intro r hr hbeq
    rcases List.mem_filterMap.mp hr with ⟨i, _, hw⟩
    rcases lucky_winner_eq_some hw with ⟨hname, hpair⟩
    have hieq : i = item := by
      have hri : r.item_name = item := by simpa using hbeq
      rw [hname] at hri
      exact hri
    rw [hieq, hnil] at hpair
    cases hpair
  · intro r hr
    rw [hrun] at hr
    rcases List.mem_filterMap.mp hr with ⟨i, _, hw⟩
    rcases lucky_winner_eq_some hw with ⟨hname, hpair⟩
    rw [hname]
    exact hpair
  · intro pk lucky hne
    simp [lucky_dip_pass, List.isEmpty_iff, hne]
  · intro pk
    rw [hrun]
    cases hres : items.filterMap (fun i => lucky_winner pick i bids) with
    | nil =>
      have hpk : lucky_dip_pass pk items bids []
          = items.filterMap (fun i => lucky_winner pk i bids) := by
        simp [lucky_dip_pass]
      rw [hpk, List.filterMap_eq_nil_iff]
      rw [List.filterMap_eq_nil_iff] at hres
      intro i hi
      rw [lucky_winner_eq_none]
      exact lucky_winner_eq_none.mp (hres i hi)
    | cons r rs =>
      simp [lucky_dip_pass]

theorem lucky_dip_pass_spec_witness :
    ((["Apple", "Kiwi"] : List String).Nodup)
    ∧ ((lucky_dip_pass (fun _ => 0) ["Apple", "Kiwi"]
          [⟨"Apple", 1, 150, 10⟩] []).filter (fun r => r.item_name == "Apple")).length = 1 :=
  ⟨by decide,
    (lucky_dip_pass_spec (fun _ => 0) ["Apple", "Kiwi"] [⟨"Apple", 1, 150, 10⟩]
      (by decide)).1 "Apple" (by decide) (by decide)⟩

/-- A Python value as it matters to the settings store: a string or a
number. The settings table maps a key to `none` both when the row is absent
and when its value is NULL, which is all `get_setting` can observe. -/
inductive PyVal where
  | str : String → PyVal
  | num : ℚ → PyVal
deriving DecidableEq, Repr

/-- The observable content of the `settings` table. -/
def Settings : Type := String → Option PyVal

/-- Embeds `set_setting` from `db.py`: `INSERT OR REPLACE INTO settings`;
storing Python `None` stores SQL NULL, observed as `none`. -/
def set_setting (s : Settings) (key : String) (value : Option PyVal) : Settings :=
  fun k => if k = key then value else s k

/-- A Python-level error raised by a call; calling a function with the wrong
number of positional arguments raises `TypeError` before the body runs. -/
inductive PyError where
  | TypeError
deriving DecidableEq, Repr

/-- The number of parameters in `def get_setting(key):` of `db.py`. -/
def get_setting_params : Nat := 1

/-- A Python positional call: the body runs only when the number of supplied
arguments equals the number of declared parameters; otherwise the call raises
`TypeError`. -/
def pyCall {α : Type} (paramCount : Nat) (args : List PyVal) (body : List PyVal → α) :
    Except PyError α :=
  if args.length = paramCount then .ok (body args) else .error .TypeError

/-- The body of `get_setting` from `db.py`, as invoked on its argument list. -/
def get_setting_body (s : Settings) (args : List PyVal) : Option PyVal :=
  match args with
  | [PyVal.str key] => s key
  | _ => none

/-- Python `float(x)` on the result of a settings lookup: `float(None)`
raises `TypeError`; a numeric value converts. (String-to-float parsing is
irrelevant here: the settings writer stores `discount_pct` numerically.) -/
def pyFloat : Option PyVal → Except PyError ℚ
  | some (PyVal.num q) => .ok q
  | _ => .error .TypeError

/-- The static fallback price table `MARKET_PRICES` of `utils.py`, with
`.get(item, 100)` defaulting to 100 for unknown items. -/
def MARKET_PRICES : List (String × ℚ) :=
  [("Apple", 200), ("Mosambi", 50), ("Banana", 40), ("Papaya", 50), ("Kiwi", 200),
   ("Dragon Fruit", 250), ("Pineapple", 60), ("Custard Apple", 100), ("Sapota", 60),
   ("Mango", 120), ("Spinach", 30), ("Honey", 300)]

/-- Embeds `fetch_real_time_price` from `utils.py`: the fallback table lookup
with default 100. -/
def fetch_real_time_price (item : String) : ℚ :=
  ((MARKET_PRICES.find? (fun p => p.1 == item)).map Prod.snd).getD 100

/-- Embeds `monitor_prices` from `utils.py`: it computes
`market_price * (1 - discount / 100)` where
`discount = float(get_setting('discount_pct', 20))` — but `get_setting` is
declared with a single parameter, so this two-argument call is a `TypeError`
at call time. -/
def monitor_prices (s : Settings) (item : String) : Except PyError ℚ :=
  let market_price := fetch_real_time_price item
  match pyCall get_setting_params [PyVal.str "discount_pct", PyVal.num 20]
      (get_setting_body s) with
  | .error e => .error e
  | .ok v =>
    match pyFloat v with
    | .error e => .error e
    | .ok discount => .ok (market_price * (1 - discount / 100))

/-- The loop body of the billing block of `Fruitbidapp.py` (lines 248-250):
for each item in order, compute `monitor_prices(item)` and persist
`billing_<item>`; the first raised exception aborts the remainder of the
`try` block. -/
def billing_loop (s : Settings) : List String → Except PyError Settings
  | [] => .ok s
  | item :: rest =>
    match monitor_prices s item with
    | .error e => .error e
    | .ok b => billing_loop (set_setting s ("billing_" ++ item) (some (PyVal.num b))) rest

/-- Embeds the billing block of `Fruitbidapp.py` (lines 242-253): skipped when
`billing_calculated` equals the cycle's `bid_start`; otherwise the loop runs
under `try`, a raised exception is caught and reported, and only a completed
loop sets `billing_calculated`. ISO timestamps are modelled by their numeric
timestamp (see file header). -/
def billing_pass (items : List String) (bid_start : ℚ) (s : Settings) : Settings :=
  if s "billing_calculated" = some (PyVal.num bid_start) then s
  else
    match billing_loop s items with
    | .error _ => s
    | .ok s2 => set_setting s2 "billing_calculated" (some (PyVal.num bid_start))

/-- The billing formula as §4.5 of the spec states it:
`reference_price(item) * (1 - discount_pct/100)` over the fallback price
table. Stated from the spec's words, to exhibit how the code diverges from
it. -/
def billing_rate_spec (item : String) (discount_pct : ℚ) : ℚ :=
  fetch_real_time_price item * (1 - discount_pct / 100)

theorem monitor_prices_raises (s : Settings) (item : String) :
    monitor_prices s item = .error .TypeError := by
  rfl

/-- C10: `monitor_prices` raises `TypeError` for every item because it passes
two arguments to the one-parameter `get_setting`; consequently a billing pass
over a nonempty item list persists nothing — no `billing_<item>` value and no
`billing_calculated` marker — so the settings are unchanged and the pass is
attempted again (and fails again) on every later action while bidding is
closed. -/
theorem billing_pass_never_persists (s : Settings) (items : List String)
    (bid_start : ℚ) (item : String) (hne : items ≠ []) :
    monitor_prices s item = .error .TypeError
    ∧ billing_pass items bid_start s = s := by
  refine ⟨monitor_prices_raises s item, ?_⟩
  unfold billing_pass
  split_ifs with hg
  · rfl
  · cases items with
    | nil => exact absurd rfl hne
    | cons i rest =>
      simp only [billing_loop, monitor_prices_raises]

theorem billing_pass_never_persists_witness :
    (["Apple"] : List String) ≠ []
    ∧ monitor_prices (fun _ => none) "Apple" = .error .TypeError
    ∧ billing_pass ["Apple"] 0 (fun _ => none) = (fun _ => none) :=
  ⟨by decide, billing_pass_never_persists (fun _ => none) ["Apple"] 0 "Apple" (by decide)⟩

/-- C5: the billing pass is idempotent once complete: when
`billing_calculated` already equals the cycle's `bid_start`, running the pass
leaves every setting — in particular every `billing_<item>` value —
unchanged. -/
theorem billing_pass_idempotent (items : List String) (bid_start : ℚ) (s : Settings)
    (h : s "billing_calculated" = some (PyVal.num bid_start)) :
    billing_pass items bid_start s = s := by
  unfold billing_pass
  rw [if_pos h]

theorem billing_pass_idempotent_witness :
    (set_setting (fun _ => none) "billing_calculated" (some (PyVal.num 7)))
        "billing_calculated" = some (PyVal.num 7)
    ∧ billing_pass ["Apple"] 7
        (set_setting (fun _ => none) "billing_calculated" (some (PyVal.num 7)))
      = set_setting (fun _ => none) "billing_calculated" (some (PyVal.num 7)) :=
  ⟨rfl, billing_pass_idempotent ["Apple"] 7
    (set_setting (fun _ => none) "billing_calculated" (some (PyVal.num 7))) rfl⟩

/-- C4 (code bug): the spec says a billing run persists
`reference_price(item) * (1 - discount_pct/100)` and then marks the cycle,
and for `Apple` at 20% discount that value is 160; the code instead raises
`TypeError` inside `monitor_prices` (two-argument call to the one-parameter
`get_setting`), the exception is caught, and the pass persists nothing: on a
settings store holding `discount_pct = 20` the pass returns the store
unchanged, so neither `billing_Apple` nor `billing_calculated` is ever
written. -/
theorem billing_pass_contradicts_spec :
    billing_rate_spec "Apple" 20 = 160
    ∧ monitor_prices (set_setting (fun _ => none) "discount_pct" (some (PyVal.num 20)))
        "Apple" = .error .TypeError
    ∧ billing_pass ["Apple"] 0
        (set_setting (fun _ => none) "discount_pct" (some (PyVal.num 20)))
      = set_setting (fun _ => none) "discount_pct" (some (PyVal.num 20)) := by
  exact ⟨by norm_num [billing_rate_spec, fetch_real_time_price, MARKET_PRICES], rfl, rfl⟩

/-- One row of the `otps` table: `(id, mobile_email, otp, expiration)`;
expirations are integer timestamps (seconds). -/
structure OtpRow where
  id : Nat
  mobile_email : String
  otp : String
  expiration : Int
deriving DecidableEq, Repr

/-- Embeds `SELECT otp, expiration FROM otps WHERE mobile_email=? ORDER BY id
DESC LIMIT 1` of `otp.py`: AUTOINCREMENT ids grow with insertion order, so
the query returns the last matching row in insertion order — the most
recently issued challenge. -/
def latest_otp (otps : List OtpRow) (ident : String) : Option OtpRow :=
  (otps.filter (fun r => r.mobile_email == ident)).getLast?

/-- Embeds `verify_otp` from `otp.py` (lines 64-98): no challenge gives
`False`; an expired challenge (`now > expiration`) gives `False`; otherwise
the submitted code is compared with the stored one. -/
def verify_otp (otps : List OtpRow) (ident user_otp : String) (now : Int) : Bool :=
  match latest_otp otps ident with
  | none => false
  | some row => if now > row.expiration then false else user_otp == row.otp

/-- The full effect of one `verify_otp` call on the OTP table: the function
only runs a SELECT, so the table component is returned as received. -/
def verify_otp_step (otps : List OtpRow) (ident user_otp : String) (now : Int) :
    Bool × List OtpRow :=
  (verify_otp otps ident user_otp now, otps)

/-- C7: `verify_otp` returns `true` iff a challenge exists for the identifier,
the submitted code equals the most recently issued challenge's code, and the
current time is not after its expiry; it returns `false` otherwise (the iff
over `Bool`), and the call leaves the stored challenges unchanged. -/
theorem verify_otp_spec (otps : List OtpRow) (ident user_otp : String) (now : Int) :
    (verify_otp otps ident user_otp now = true
      ↔ ∃ row, latest_otp otps ident = some row
          ∧ user_otp = row.otp ∧ now ≤ row.expiration)
    ∧ (verify_otp_step otps ident user_otp now).2 = otps := by
  refine ⟨?_, rfl⟩
  unfold verify_otp
  cases h : latest_otp otps ident with
  | none => simp
  | some row =>
    show (if now > row.expiration then false else (user_otp == row.otp)) = true
        ↔ ∃ r, some row = some r ∧ user_otp = r.otp ∧ now ≤ r.expiration
    split_ifs with hexp
    · simp only [false_iff]
      rintro ⟨r, hr, _, hle⟩
      obtain rfl := Option.some.inj hr
      omega
    · constructor
      · intro hbeq
        exact ⟨row, rfl, by simpa using hbeq, by omega⟩
      · rintro ⟨r, hr, hcode, _⟩
        obtain rfl := Option.some.inj hr
        simpa using hcode

/-- The number of parameters in `def send_otp(mobile_email):` of `otp.py`. -/
def send_otp_params : Nat := 1

/-- The pending-registration data kept in `st.session_state.temp_reg`. -/
structure TempReg where
  reg_id : String
  address : String
deriving DecidableEq, Repr

/-- Embeds `validate_mobile` of `utils.py`: the regex `^\+91\d{10}$`
(ASCII digits). -/
def validate_mobile (s : String) : Bool :=
  match s.toList with
  | '+' :: '9' :: '1' :: rest => rest.length == 10 && rest.all Char.isDigit
  | _ => false

/-- Embeds `validate_email` of `utils.py`:
`re.match` with pattern `[^@]+@[^@]+\.[^@]+` succeeds iff the first `@` sits
at position at least 1 and, in the `@`-free segment that follows it, some
`.` occurs that is neither the segment's first character nor its last. -/
def validate_email (s : String) : Bool :=
  let cs := s.toList
  let pre := cs.takeWhile (fun c => c != '@')
  if pre.length = 0 || pre.length = cs.length then false
  else
    let seg := (cs.drop (pre.length + 1)).takeWhile (fun c => c != '@')
    ((seg.drop 1).dropLast).contains '.'

/-- Python `address.strip()`: leading and trailing whitespace removed (ASCII
whitespace modelled). -/
def py_strip (s : String) : String :=
  (((s.toList.dropWhile Char.isWhitespace).reverse.dropWhile Char.isWhitespace).reverse).asString

/-- The body of `send_otp` from `otp.py` (lines 24-61), run only if the call
binds: it inserts one challenge row expiring 300 seconds (5 minutes) after
`now` and returns `True`. The randomly generated code is a parameter. -/
def send_otp_body (otps : List OtpRow) (nextId : Nat) (code : String) (now : Int)
    (args : List PyVal) : Bool × List OtpRow :=
  match args with
  | [PyVal.str ident] => (true, otps ++ [⟨nextId, ident, code, now + 300⟩])
  | _ => (false, otps)

/-- Embeds the registration submit handler of `Fruitbidapp.py` (lines
192-201): on a valid identifier and a nonempty stripped address it calls
`send_otp(reg_id, reg_type)` — two positional arguments — and on a truthy
result stores the pending registration in the session; an invalid form only
reports an error. The result is the new OTP table and pending-registration
slot, or the uncaught Python error. -/
def registration_step (otps : List OtpRow) (temp : Option TempReg)
    (reg_type reg_id address code : String) (now : Int) (nextId : Nat) :
    Except PyError (List OtpRow × Option TempReg) :=
  if ((reg_type == "Mobile" && validate_mobile reg_id)
      || (reg_type == "Email" && validate_email reg_id)) && py_strip address != "" then
    match pyCall send_otp_params [PyVal.str reg_id, PyVal.str reg_type]
        (send_otp_body otps nextId code now) with
    | .error e => .error e
    | .ok (true, otps2) => .ok (otps2, some ⟨reg_id, address⟩)
    | .ok (false, otps2) => .ok (otps2, temp)
  else .ok (otps, temp)

/-- C9: every registration request that passes the form's validation reaches
the call `send_otp(reg_id, reg_type)`, which passes two arguments to the
one-parameter `send_otp` and therefore raises `TypeError` for all inputs:
the step never returns a successor state, so no OTP challenge row is ever
inserted through this flow and no pending registration is ever recorded. -/
theorem registration_step_raises (otps : List OtpRow) (temp : Option TempReg)
    (reg_type reg_id address code : String) (now : Int) (nextId : Nat)
    (hvalid : (((reg_type == "Mobile" && validate_mobile reg_id)
        || (reg_type == "Email" && validate_email reg_id))
        && py_strip address != "") = true) :
    registration_step otps temp reg_type reg_id address code now nextId
      = .error .TypeError := by
  unfold registration_step
  simp only [hvalid, if_true]
  rfl

theorem registration_step_raises_witness :
    ((("Mobile" == "Mobile" && validate_mobile "+919876543210")
        || ("Mobile" == "Email" && validate_email "+919876543210"))
        && (py_strip " 12 Orchard Lane " != "")) = true
    ∧ registration_step [] none "Mobile" "+919876543210" " 12 Orchard Lane "
        "482913" 0 1 = .error .TypeError :=
  ⟨by decide,
    registration_step_raises [] none "Mobile" "+919876543210" " 12 Orchard Lane "
      "482913" 0 1 (by decide)⟩

/-- Seconds per day; Python `timedelta.days` is the floor of the total
duration measured in days. -/
def secondsPerDay : Int := 86400

/-- Embeds `days_elapsed = (datetime.now() - bid_start).days` of
`Fruitbidapp.py` (line 168): floor division of the elapsed seconds by one
day. -/
def days_elapsed (now bid_start : Int) : Int :=
  (now - bid_start).fdiv secondsPerDay

/-- Embeds `bidding_open = days_elapsed < 3` (line 169). -/
def bidding_open (now bid_start : Int) : Bool :=
  days_elapsed now bid_start < 3

/-- Embeds `remaining = timedelta(days=3) - (datetime.now() - bid_start)`
(line 170), in seconds. -/
def remaining_time (now bid_start : Int) : Int :=
  3 * secondsPerDay - (now - bid_start)

/-- Embeds the guard `if bidding_open and st.session_state.current_user:` on
the bidding interface (line 380): the bid form is reachable only when the
window is open and a user is logged in. -/
def bid_form_shown (now bid_start : Int) (logged_in : Bool) : Bool :=
  bidding_open now bid_start && logged_in

/-- C8: a bid can be submitted only while strictly less than 3 days have
elapsed since `bid_start` — the gate is open iff `now - bid_start` is below
3 days, hence never once 3 or more days have passed — and the remaining time
shown while open equals 3 days minus the elapsed time. -/
theorem bidding_window_spec (now bid_start : Int) :
    (bidding_open now bid_start = true ↔ now - bid_start < 3 * secondsPerDay)
    ∧ (∀ logged_in : Bool, bid_form_shown now bid_start logged_in = true
        → now - bid_start < 3 * secondsPerDay)
    ∧ remaining_time now bid_start = 3 * secondsPerDay - (now - bid_start) := by
  have hiff : bidding_open now bid_start = true ↔ now - bid_start < 3 * secondsPerDay := by
    unfold bidding_open days_elapsed secondsPerDay
    rw [Int.fdiv_eq_ediv _ (by norm_num)]
    simp only [decide_eq_true_eq]
    omega
  refine ⟨hiff, ?_, rfl⟩
  intro logged_in h
  have : bidding_open now bid_start = true := by
    unfold bid_form_shown at h
    exact (Bool.and_eq_true _ _).mp h |>.1
  exact hiff.mp this

/-- The mutable state the reset block touches: the settings store, the bids
table and the lucky-dip table. -/
structure AppState where
  settings : Settings
  bids : List Bid
  lucky : List LuckyRow

/-- Embeds the Admin Reset Bid Cycle block of `Fruitbidapp.py` (lines
360-377), in source order: set `bid_start` to the reset time, `DELETE FROM
bids`, `DELETE FROM lucky_dip`, store `None` into `billing_calculated`, and
store `None` into `billing_<item>` for every item. -/
def reset_cycle (now : Int) (items : List String) (st : AppState) : AppState :=
  let s1 := set_setting st.settings "bid_start" (some (PyVal.num now))
  let s2 := set_setting s1 "billing_calculated" none
  let s3 := items.foldl (fun acc item => set_setting acc ("billing_" ++ item) none) s2
  { settings := s3, bids := [], lucky := [] }

theorem foldl_clear_billing (k : String) :
    ∀ (l : List String) (s : Settings),
    (l.foldl (fun acc item => set_setting acc ("billing_" ++ item) none) s) k
      = if l.any (fun item => ("billing_" ++ item : String) == k) then none else s k := by
  intro l
  induction l with
  | nil => intro s; simp
  | cons x xs ih =>
    intro s
    simp only [List.foldl_cons, List.any_cons, ih]
    by_cases hxk : ("billing_" ++ x : String) = k
    · by_cases hxs : xs.any (fun item => ("billing_" ++ item : String) == k)
      · simp [hxs]
      · simp only [Bool.not_eq_true] at hxs
        simp [hxs, hxk, set_setting]
    · have : (("billing_" ++ x : String) == k) = false := by
        simp [hxk]
      simp only [this, Bool.false_or]
      by_cases hxs : xs.any (fun item => ("billing_" ++ item : String) == k)
      · simp [hxs]
      · simp only [Bool.not_eq_true] at hxs
        simp only [hxs, if_neg Bool.false_ne_true, set_setting]
        rw [if_neg (fun h => hxk h.symm)]

theorem billing_key_ne_bid_start (item : String) :
    ("billing_" ++ item : String) ≠ "bid_start" := by
  intro h
  have hd := congrArg String.data h
  rw [String.data_append] at hd
  have h8 := congrArg (List.take ("billing_".data.length)) hd
  rw [List.take_left] at h8
  exact absurd h8 (by decide)

/-- C6: after a cycle reset the bids table and the lucky-dip table are empty,
`bid_start` holds the reset time, `billing_calculated` and every per-item
`billing_<item>` setting read as cleared, and bidding is open again: the
elapsed days at the reset time are 0, which is below the 3-day limit. -/
theorem reset_cycle_spec (now : Int) (items : List String) (st : AppState) :
    (reset_cycle now items st).bids = []
    ∧ (reset_cycle now items st).lucky = []
    ∧ (reset_cycle now items st).settings "bid_start" = some (PyVal.num now)
    ∧ (reset_cycle now items st).settings "billing_calculated" = none
    ∧ (∀ item ∈ items, (reset_cycle now items st).settings ("billing_" ++ item) = none)
    ∧ days_elapsed now now = 0
    ∧ bidding_open now now = true := by
  refine ⟨rfl, rfl, ?_, ?_, ?_, ?_, ?_⟩
  · show (items.foldl (fun acc item => set_setting acc ("billing_" ++ item) none) _)
        "bid_start" = some (PyVal.num now)
    rw [foldl_clear_billing]
    have hany : items.any (fun item => ("billing_" ++ item : String) == "bid_start") = false := by
      rw [Bool.eq_false_iff]
      intro h
      rcases List.any_eq_true.mp h with ⟨i, _, hbeq⟩
      exact billing_key_ne_bid_start i (by simpa using hbeq)
    rw [hany, if_neg Bool.false_ne_true]
    simp [set_setting]
  · show (items.foldl (fun acc item => set_setting acc ("billing_" ++ item) none) _)
        "billing_calculated" = none
    rw [foldl_clear_billing]
    by_cases hany : items.any (fun item => ("billing_" ++ item : String) == "billing_calculated")
    · rw [if_pos hany]
    · simp only [Bool.not_eq_true] at hany
      rw [hany, if_neg Bool.false_ne_true]
      simp [set_setting]
  · intro item hmem
    show (items.foldl (fun acc it => set_setting acc ("billing_" ++ it) none) _)
        ("billing_" ++ item) = none
    rw [foldl_clear_billing]
    rw [if_pos (List.any_eq_true.mpr ⟨item, hmem, by simp⟩)]
  · show (now - now).fdiv secondsPerDay = 0
    rw [sub_self]
    rfl
  · show decide (days_elapsed now now < 3) = true
    have h0 : days_elapsed now now = 0 := by
      show (now - now).fdiv secondsPerDay = 0
      rw [sub_self]; rfl
    rw [h0]
    decide

end FruitBid
